import Mathlib

/-!
Shallow embedding of the local-first synchronization core of the
JobAppTrackerFrontend repository: the local cache operations of
src/hooks/useLocalStorage.ts and the sync manager of
src/hooks/useSyncManager.ts, together with the remote-wins merge
algorithm (mergeApplications).

Modelling conventions:
- A JavaScript object of the JobApplication interface is modelled as a
  structure; optional fields are Option-valued (none corresponds to the
  key being absent / undefined).
- Date.now() and new Date().toISOString() are passed in explicitly as
  parameters (dateNow / nowIso / now), since they read the clock.
- new Date(s).getTime() is modelled by an explicit parameter
  parse : String -> Int giving the millisecond timestamp of a date
  string (the embedding is parametric in the date parser; theorems hold
  for every parser, and concrete counterexamples instantiate it with
  values that ECMAScript Date produces on the strings involved).
- The remote API client is opaque: each operation that calls it takes
  the call result as an Except parameter, and reports whether the call
  was performed (remoteCalled / fetched) so that claims about "no remote
  call is made" are statable.
- JavaScript Map insertion semantics (set on an existing key replaces
  the value in place, set on a fresh key appends; values() iterates in
  insertion order) are modelled by an association list with the same
  discipline, and Array.prototype.sort with a consistent comparator is
  modelled by a stable insertion sort, which for a consistent comparator
  computes exactly the sorted-and-stable result required by ES2019.
-/

namespace JobAppTracker

/-- One job application record, after src/types/jobApplication.ts
(interface JobApplication). The id is a number assigned by the server
or, for offline-created records, a Date.now() millisecond value. -/
structure JobApplication where
  id : Option Nat
  job_title : String
  company : String
  job_description : Option String
  location : Option String
  salary : Option String
  job_url : Option String
  date_applied : String
  date_job_posted : Option String
  application_status : String
  interview_stage : String
  notes : Option String
  referred_by : Option String
  referral_relationship : Option String
  referral_date : Option String
  referral_notes : Option String
  created_at : Option String
  updated_at : Option String
deriving DecidableEq

/-- Creation payload, after interface JobApplicationCreate: the same
fields minus id and timestamps. -/
structure JobApplicationCreate where
  job_title : String
  company : String
  job_description : Option String
  location : Option String
  salary : Option String
  job_url : Option String
  date_applied : String
  date_job_posted : Option String
  application_status : String
  interview_stage : String
  notes : Option String
  referred_by : Option String
  referral_relationship : Option String
  referral_date : Option String
  referral_notes : Option String
deriving DecidableEq

/-- A partial update payload: a JavaScript object with a subset of the
JobApplication keys and no id key (interface JobApplicationUpdate,
and more generally any Partial JobApplication without id).  A field
that is none corresponds to the key being absent from the object. -/
structure JobApplicationUpdate where
  job_title : Option String := none
  company : Option String := none
  job_description : Option String := none
  location : Option String := none
  salary : Option String := none
  job_url : Option String := none
  date_applied : Option String := none
  date_job_posted : Option String := none
  application_status : Option String := none
  interview_stage : Option String := none
  notes : Option String := none
  referred_by : Option String := none
  referral_relationship : Option String := none
  referral_date : Option String := none
  referral_notes : Option String := none
  created_at : Option String := none
  updated_at : Option String := none
deriving DecidableEq

/-- The runtime shape of the updates argument of updateApplication in
useLocalStorage.ts, which is declared as
Partial JobApplication or JobApplication: either an id-less partial
field set, or a complete record (which carries an id field). -/
inductive UpdatePayload where
  | fieldUpdate (u : JobApplicationUpdate)
  | fullRecord (a : JobApplication)
deriving DecidableEq

/-- The spread-merge branch of updateApplication for a partial payload:
the JavaScript object spread of app, then updates, then the refreshed
updated_at (useLocalStorage.ts line 69). A key present in updates
(some value) overrides the stored field; an absent key (none) keeps it. -/
def applyUpdate (now : String) (app : JobApplication) (u : JobApplicationUpdate) : JobApplication :=
  { id := app.id
    job_title := u.job_title.getD app.job_title
    company := u.company.getD app.company
    job_description := u.job_description.orElse fun _ => app.job_description
    location := u.location.orElse fun _ => app.location
    salary := u.salary.orElse fun _ => app.salary
    job_url := u.job_url.orElse fun _ => app.job_url
    date_applied := u.date_applied.getD app.date_applied
    date_job_posted := u.date_job_posted.orElse fun _ => app.date_job_posted
    application_status := u.application_status.getD app.application_status
    interview_stage := u.interview_stage.getD app.interview_stage
    notes := u.notes.orElse fun _ => app.notes
    referred_by := u.referred_by.orElse fun _ => app.referred_by
    referral_relationship := u.referral_relationship.orElse fun _ => app.referral_relationship
    referral_date := u.referral_date.orElse fun _ => app.referral_date
    referral_notes := u.referral_notes.orElse fun _ => app.referral_notes
    created_at := u.created_at.orElse fun _ => app.created_at
    updated_at := some now }

/-- The spread-merge branch of updateApplication for a full-record
payload whose id does not match the target: every key present in the
payload object overrides the stored field, and updated_at is refreshed. -/
def applyFull (now : String) (app a : JobApplication) : JobApplication :=
  { id := a.id.orElse fun _ => app.id
    job_title := a.job_title
    company := a.company
    job_description := a.job_description.orElse fun _ => app.job_description
    location := a.location.orElse fun _ => app.location
    salary := a.salary.orElse fun _ => app.salary
    job_url := a.job_url.orElse fun _ => app.job_url
    date_applied := a.date_applied
    date_job_posted := a.date_job_posted.orElse fun _ => app.date_job_posted
    application_status := a.application_status
    interview_stage := a.interview_stage
    notes := a.notes.orElse fun _ => app.notes
    referred_by := a.referred_by.orElse fun _ => app.referred_by
    referral_relationship := a.referral_relationship.orElse fun _ => app.referral_relationship
    referral_date := a.referral_date.orElse fun _ => app.referral_date
    referral_notes := a.referral_notes.orElse fun _ => app.referral_notes
    created_at := a.created_at.orElse fun _ => app.created_at
    updated_at := some now }

/-- addApplication of useLocalStorage.ts: appends the record to the
in-memory list (insertion order preserved, no uniqueness check). -/
def addApplication (prev : List JobApplication) (application : JobApplication) : List JobApplication :=
  prev ++ [application]

/-- updateApplication of useLocalStorage.ts: maps over the list; a
record whose id matches is replaced outright when the payload itself
carries the same id (the check updates.id === id on line 65), and
otherwise receives the spread-merge with updated_at refreshed. Records
whose id does not match are returned unchanged. -/
def updateApplication (now : String) (id : Nat) (updates : UpdatePayload)
    (prev : List JobApplication) : List JobApplication :=
  prev.map fun app =>
    if app.id = some id then
      match updates with
      | .fullRecord a => if a.id = some id then a else applyFull now app a
      | .fieldUpdate u => applyUpdate now app u
    else app

/-- deleteApplication of useLocalStorage.ts: filters out every record
whose id strictly equals the target (app.id !== id keeps the rest,
including records with an undefined id). -/
def deleteApplication (id : Nat) (prev : List JobApplication) : List JobApplication :=
  prev.filter fun app => app.id ≠ some id

/-- clearAllApplications of useLocalStorage.ts: empties the list. -/
def clearAllApplications (_prev : List JobApplication) : List JobApplication :=
  []

/-- syncWithBackend of useLocalStorage.ts (aliased syncLocalStorage in
the sync manager): installs the given list wholesale. -/
def syncLocalStorage (backendApplications : List JobApplication)
    (_prev : List JobApplication) : List JobApplication :=
  backendApplications

/-- The millisecond sort key used by the comparator of
mergeApplications: a.created_at ? new Date(a.created_at).getTime() : 0.
A missing or empty (falsy) created_at yields 0; otherwise the date
string is parsed by the ambient parser. -/
def jsTime (parse : String → Int) (app : JobApplication) : Int :=
  match app.created_at with
  | none => 0
  | some s => if s = "" then 0 else parse s

/-- Stable insertion of a record into a list sorted descending by
jsTime: the record goes before the first strictly older record, after
every record at least as new (so ties keep their original order, as the
stable ES2019 Array.prototype.sort does with the comparator
bDate - aDate). -/
def insertDesc (parse : String → Int) (a : JobApplication) :
    List JobApplication → List JobApplication
  | [] => [a]
  | b :: l => if jsTime parse b ≤ jsTime parse a then a :: b :: l
              else b :: insertDesc parse a l

/-- Stable sort descending by jsTime; for the consistent comparator
(b, a) => bDate - aDate this computes exactly the result of the ES2019
Array.prototype.sort call at the end of mergeApplications. -/
def sortDesc (parse : String → Int) : List JobApplication → List JobApplication
  | [] => []
  | a :: l => insertDesc parse a (sortDesc parse l)

/-- JavaScript Map.prototype.has over the association-list model. -/
def mapHas (m : List (Nat × JobApplication)) (k : Nat) : Bool :=
  m.any fun p => p.1 = k

/-- JavaScript Map.prototype.set: replace the value in place when the
key exists (insertion position preserved), append otherwise. -/
def mapSet (m : List (Nat × JobApplication)) (k : Nat) (v : JobApplication) :
    List (Nat × JobApplication) :=
  if mapHas m k then m.map fun p => if p.1 = k then (k, v) else p
  else m ++ [(k, v)]

/-- First forEach of mergeApplications: insert a backend record into
the map under its id, skipping records whose id is undefined. -/
def setBackendStep (m : List (Nat × JobApplication)) (app : JobApplication) :
    List (Nat × JobApplication) :=
  match app.id with
  | some k => mapSet m k app
  | none => m

/-- Second forEach of mergeApplications: insert a local record only if
its id is defined and not already present in the map. -/
def setLocalStep (m : List (Nat × JobApplication)) (app : JobApplication) :
    List (Nat × JobApplication) :=
  match app.id with
  | some k => if mapHas m k then m else mapSet m k app
  | none => m

/-- The id-to-record map built by mergeApplications: all backend
records first (they take precedence), then the local records whose id
is not already present. -/
def mergedMap (localApps backend : List JobApplication) : List (Nat × JobApplication) :=
  localApps.foldl setLocalStep (backend.foldl setBackendStep [])

/-- mergeApplications of useSyncManager.ts (lines 231-253): the values
of the id-to-record map, sorted descending by the created_at-derived
millisecond key. -/
def mergeApplications (parse : String → Int)
    (localApps backend : List JobApplication) : List JobApplication :=
  sortDesc parse ((mergedMap localApps backend).map fun p => p.2)

/-- The ids occurring in a list: every defined id, in order. -/
def definedIds (l : List JobApplication) : List Nat :=
  l.filterMap fun app => app.id

/-- The SyncStatus state of useSyncManager.ts. lastSync is a Date
(millisecond value) or null; error is a message string or null. -/
structure SyncStatus where
  isOnline : Bool
  lastSync : Option Int
  pendingChanges : Nat
  isSyncing : Bool
  error : Option String
deriving DecidableEq

/-- The state the sync manager operates on: the cached application list
of useLocalStorage plus its own SyncStatus. -/
structure ManagerState where
  applications : List JobApplication
  syncStatus : SyncStatus
deriving DecidableEq

/-- updatePendingChanges of useSyncManager.ts:
Math.max(0, pendingChanges + change). -/
def updatePendingChanges (pending : Nat) (change : Int) : Nat :=
  (max 0 ((pending : Int) + change)).toNat

/-- Result of one syncWithBackend call: the final state, and whether
the remote fetch was attempted (false when the guard returned early). -/
structure SyncResult where
  state : ManagerState
  fetched : Bool
deriving DecidableEq

/-- syncWithBackend of useSyncManager.ts (lines 95-129). online models
navigator.onLine at entry, now the Date value of updateLastSync, and
fetchResult the outcome of jobApplicationsApi.getAll() (the try block:
an exception anywhere in it lands in the catch). On success the cache
is replaced by the merge, lastSync is set, and pendingChanges is
cleared by updatePendingChanges(-pendingChanges); on failure only
isSyncing and error change. -/
def syncWithBackend (parse : String → Int) (online : Bool) (now : Int)
    (fetchResult : Except String (List JobApplication)) (s : ManagerState) : SyncResult :=
  if !online || s.syncStatus.isSyncing then
    { state := s, fetched := false }
  else
    match fetchResult with
    | .ok backendApplications =>
        let mergedApplications := mergeApplications parse s.applications backendApplications
        { state :=
            { applications := syncLocalStorage mergedApplications s.applications
              syncStatus :=
                { isOnline := s.syncStatus.isOnline
                  lastSync := some now
                  pendingChanges :=
                    updatePendingChanges s.syncStatus.pendingChanges
                      (-(s.syncStatus.pendingChanges : Int))
                  isSyncing := false
                  error := none } }
          fetched := true }
    | .error _ =>
        { state :=
            { applications := s.applications
              syncStatus :=
                { s.syncStatus with
                    isSyncing := false
                    error := some "Failed to sync with backend" } }
          fetched := true }

/-- The temporary record synthesized by the offline / fallback branches
of addApplicationWithSync: the creation payload spread together with
id: Date.now() and current ISO timestamps. -/
def mkTemp (d : JobApplicationCreate) (dateNow : Nat) (nowIso : String) : JobApplication :=
  { id := some dateNow
    job_title := d.job_title
    company := d.company
    job_description := d.job_description
    location := d.location
    salary := d.salary
    job_url := d.job_url
    date_applied := d.date_applied
    date_job_posted := d.date_job_posted
    application_status := d.application_status
    interview_stage := d.interview_stage
    notes := d.notes
    referred_by := d.referred_by
    referral_relationship := d.referral_relationship
    referral_date := d.referral_date
    referral_notes := d.referral_notes
    created_at := some nowIso
    updated_at := some nowIso }

/-- Result of one addApplicationWithSync call: the final state, the
record returned to the caller (the function never returns null and
never rethrows), and whether the remote create was attempted. -/
structure AddResult where
  state : ManagerState
  returned : JobApplication
  remoteCalled : Bool
deriving DecidableEq

/-- addApplicationWithSync of useSyncManager.ts (lines 132-165).
online models navigator.onLine, dateNow the Date.now() value, nowIso
the new Date().toISOString() value, nowSync the Date of updateLastSync,
and remoteCreate the outcome of jobApplicationsApi.create. Online with
remote success: the server record is added and lastSync bumped. Offline,
or online with the remote create throwing (the catch block): a temporary
record is added and pendingChanges incremented by 1. -/
def addApplicationWithSync (online : Bool) (dateNow : Nat) (nowIso : String) (nowSync : Int)
    (remoteCreate : Except String JobApplication) (applicationData : JobApplicationCreate)
    (s : ManagerState) : AddResult :=
  if online then
    match remoteCreate with
    | .ok newApplication =>
        { state :=
            { applications := addApplication s.applications newApplication
              syncStatus := { s.syncStatus with lastSync := some nowSync } }
          returned := newApplication
          remoteCalled := true }
    | .error _ =>
        let tempApplication := mkTemp applicationData dateNow nowIso
        { state :=
            { applications := addApplication s.applications tempApplication
              syncStatus :=
                { s.syncStatus with
                    pendingChanges := updatePendingChanges s.syncStatus.pendingChanges 1 } }
          returned := tempApplication
          remoteCalled := true }
  else
    let tempApplication := mkTemp applicationData dateNow nowIso
    { state :=
        { applications := addApplication s.applications tempApplication
          syncStatus :=
            { s.syncStatus with
                pendingChanges := updatePendingChanges s.syncStatus.pendingChanges 1 } }
      returned := tempApplication
      remoteCalled := false }

/-- Result of one updateApplicationWithSync call: the final state, the
boolean returned to the caller, and whether the remote update was
attempted. -/
structure UpdateResult where
  state : ManagerState
  ok : Bool
  remoteCalled : Bool
deriving DecidableEq

/-- updateApplicationWithSync of useSyncManager.ts (lines 168-189).
Online with remote success: cache updated, lastSync bumped, returns
true. Offline: cache updated, pendingChanges incremented, returns true.
Online with the remote update throwing (the catch block): cache
updated, pendingChanges incremented, returns false. The updates
payload has the JobApplicationUpdate shape (no id field), so the cache
update always takes the partial-merge path. -/
def updateApplicationWithSync (online : Bool) (nowIso : String) (nowSync : Int)
    (remoteUpdate : Except String Unit) (id : Nat) (updates : JobApplicationUpdate)
    (s : ManagerState) : UpdateResult :=
  if online then
    match remoteUpdate with
    | .ok _ =>
        { state :=
            { applications := updateApplication nowIso id (.fieldUpdate updates) s.applications
              syncStatus := { s.syncStatus with lastSync := some nowSync } }
          ok := true
          remoteCalled := true }
    | .error _ =>
        { state :=
            { applications := updateApplication nowIso id (.fieldUpdate updates) s.applications
              syncStatus :=
                { s.syncStatus with
                    pendingChanges := updatePendingChanges s.syncStatus.pendingChanges 1 } }
          ok := false
          remoteCalled := true }
  else
    { state :=
        { applications := updateApplication nowIso id (.fieldUpdate updates) s.applications
          syncStatus :=
            { s.syncStatus with
                pendingChanges := updatePendingChanges s.syncStatus.pendingChanges 1 } }
      ok := true
      remoteCalled := false }

/-- The cache states reachable from the initial empty cache through the
operations exposed by useLocalStorage.ts: add, update, delete, clear,
and the wholesale replacement used by the sync manager (which the hook
accepts with an arbitrary list). -/
inductive CacheReachable : List JobApplication → Prop where
  | start : CacheReachable []
  | addStep (a : JobApplication) {l : List JobApplication} :
      CacheReachable l → CacheReachable (addApplication l a)
  | updateStep (now : String) (id : Nat) (updates : UpdatePayload)
      {l : List JobApplication} :
      CacheReachable l → CacheReachable (updateApplication now id updates l)
  | deleteStep (id : Nat) {l : List JobApplication} :
      CacheReachable l → CacheReachable (deleteApplication id l)
  | clearStep {l : List JobApplication} :
      CacheReachable l → CacheReachable (clearAllApplications l)
  | replaceStep (backendApplications : List JobApplication) {l : List JobApplication} :
      CacheReachable l → CacheReachable (syncLocalStorage backendApplications l)

/-! ### Predicates used to state the claims, and concrete sample data -/

/-- A record lacking a parseable created_at in the sense of the spec:
the created_at value is absent, or is the empty string (which no date
parser accepts). -/
def lacksCreatedAt (app : JobApplication) : Bool :=
  match app.created_at with
  | none => true
  | some s => decide (s = "")

/-- The sort key the claim attributes to a record: no key at all
(strictly oldest) for a record lacking a parseable created_at, the
parsed timestamp otherwise. -/
def claimKey (parse : String → Int) (app : JobApplication) : Option Int :=
  if lacksCreatedAt app then none else some (jsTime parse app)

/-- Comparison treating a missing key as strictly older than every
timestamp. -/
def optLeKey : Option Int → Option Int → Bool
  | none, _ => true
  | some _, none => false
  | some x, some y => decide (x ≤ y)

/-- The ordering property claimed for the merge output: descending by
created_at with records lacking a parseable created_at sorting as
oldest (every later record has a key at most the earlier record's key,
where a missing key is below every key). -/
def claimSortedOk (parse : String → Int) : List JobApplication → Bool
  | [] => true
  | a :: l =>
      (l.all fun b => optLeKey (claimKey parse b) (claimKey parse a))
        && claimSortedOk parse l

/-- A record is changed only in the supplied fields when every field
whose key is absent from the partial payload (other than updated_at)
is carried over unchanged, and the id is untouched. -/
def UnsuppliedUnchanged (u : JobApplicationUpdate) (app o : JobApplication) : Prop :=
  o.id = app.id
  ∧ (u.job_title = none → o.job_title = app.job_title)
  ∧ (u.company = none → o.company = app.company)
  ∧ (u.job_description = none → o.job_description = app.job_description)
  ∧ (u.location = none → o.location = app.location)
  ∧ (u.salary = none → o.salary = app.salary)
  ∧ (u.job_url = none → o.job_url = app.job_url)
  ∧ (u.date_applied = none → o.date_applied = app.date_applied)
  ∧ (u.date_job_posted = none → o.date_job_posted = app.date_job_posted)
  ∧ (u.application_status = none → o.application_status = app.application_status)
  ∧ (u.interview_stage = none → o.interview_stage = app.interview_stage)
  ∧ (u.notes = none → o.notes = app.notes)
  ∧ (u.referred_by = none → o.referred_by = app.referred_by)
  ∧ (u.referral_relationship = none → o.referral_relationship = app.referral_relationship)
  ∧ (u.referral_date = none → o.referral_date = app.referral_date)
  ∧ (u.referral_notes = none → o.referral_notes = app.referral_notes)
  ∧ (u.created_at = none → o.created_at = app.created_at)

/-- A backend record with no created_at field. -/
def appA : JobApplication :=
  { id := some 1
    job_title := "Engineer"
    company := "Acme"
    job_description := none
    location := none
    salary := none
    job_url := none
    date_applied := "2024-01-01"
    date_job_posted := none
    application_status := "Applied"
    interview_stage := "None"
    notes := none
    referred_by := none
    referral_relationship := none
    referral_date := none
    referral_notes := none
    created_at := none
    updated_at := none }

/-- A backend record whose created_at parses to a negative (pre-1970)
millisecond timestamp. -/
def appB : JobApplication :=
  { appA with
      id := some 2
      created_at := some "1960-01-01T00:00:00.000Z" }

/-- A local record with its own id and an epoch-era created_at. -/
def appL : JobApplication :=
  { appA with
      id := some 3
      created_at := some "2024-03-01T00:00:00.000Z" }

/-- A date parser agreeing with ECMAScript Date on the sample strings:
new Date of the 1960 ISO string yields -315619200000 milliseconds, and
of the 2024 strings a non-negative value (0 stands in; only sign and
relative order matter to the statements below). -/
def parse1960 : String → Int :=
  fun s => if s = "1960-01-01T00:00:00.000Z" then -315619200000 else 0

/-- A trivial date parser for witnesses that do not depend on dates. -/
def parseZero : String → Int := fun _ => 0

/-- A stored record with stale timestamps. -/
def oldApp : JobApplication :=
  { appA with
      id := some 1
      created_at := some "2024-01-01T00:00:00.000Z"
      updated_at := some "2024-01-01T00:00:00.000Z" }

/-- A full-record update payload for the record with id 1: same record
with edited notes, carrying its old updated_at. -/
def oldAppEdit : JobApplication :=
  { oldApp with notes := some "edited" }

/-- A record with an undefined id (not yet persisted). -/
def noIdApp : JobApplication := { oldApp with id := none }

/-- A sample partial update payload supplying only the notes field. -/
def u0 : JobApplicationUpdate := { notes := some "pinged recruiter" }

/-- A sample creation payload. -/
def sampleCreate : JobApplicationCreate :=
  { job_title := "Engineer"
    company := "Acme"
    job_description := none
    location := none
    salary := none
    job_url := none
    date_applied := "2024-01-01"
    date_job_posted := none
    application_status := "Applied"
    interview_stage := "None"
    notes := none
    referred_by := none
    referral_relationship := none
    referral_date := none
    referral_notes := none }

/-- A sample manager state: one cached record, three pending changes,
not syncing. -/
def sampleState : ManagerState :=
  { applications := [oldApp]
    syncStatus :=
      { isOnline := false
        lastSync := none
        pendingChanges := 3
        isSyncing := false
        error := none } }

/-! ### Lemmas about the stable descending sort -/

/-- The output of mergeApplications is descending in the jsTime key:
every record is at least as new as every record after it. -/
def SortedDesc (parse : String → Int) (l : List JobApplication) : Prop :=
  l.Pairwise fun a b => jsTime parse b ≤ jsTime parse a

theorem insertDesc_perm (parse : String → Int) (a : JobApplication) :
    ∀ l : List JobApplication, (insertDesc parse a l).Perm (a :: l) := by
  intro l
  induction l with
  | nil => simp [insertDesc]
  | cons b l ih =>
      by_cases h : jsTime parse b ≤ jsTime parse a
      · simp [insertDesc, h]
      · simpa [insertDesc, h] using (ih.cons b).trans (List.Perm.swap a b l)

theorem sortDesc_perm (parse : String → Int) :
    ∀ l : List JobApplication, (sortDesc parse l).Perm l := by
  intro l
  induction l with
  | nil => simp [sortDesc]
  | cons a l ih => exact (insertDesc_perm parse a (sortDesc parse l)).trans (ih.cons a)

theorem mem_insertDesc {parse : String → Int} {a x : JobApplication}
    {l : List JobApplication} :
    x ∈ insertDesc parse a l ↔ x = a ∨ x ∈ l := by
  have h : x ∈ insertDesc parse a l ↔ x ∈ a :: l := (insertDesc_perm parse a l).mem_iff
  simpa using h

theorem insertDesc_sorted (parse : String → Int) (a : JobApplication)
    {l : List JobApplication} (hl : SortedDesc parse l) :
    SortedDesc parse (insertDesc parse a l) := by
  unfold SortedDesc at hl ⊢
  induction l with
  | nil => simp [insertDesc]
  | cons b l ih =>
      rcases List.pairwise_cons.1 hl with ⟨hb, hl2⟩
      by_cases h : jsTime parse b ≤ jsTime parse a
      · rw [insertDesc, if_pos h]
        refine List.pairwise_cons.2 ⟨?_, hl⟩
        intro x hx
        rcases List.mem_cons.1 hx with hx | hx
        · simpa [hx] using h
        · exact le_trans (hb x hx) h
      · rw [insertDesc, if_neg h]
        refine List.pairwise_cons.2 ⟨?_, ih hl2⟩
        intro x hx
        rcases mem_insertDesc.1 hx with hx | hx
        · subst hx; exact le_of_not_le h
        · exact hb x hx

theorem sortDesc_sorted (parse : String → Int) :
    ∀ l : List JobApplication, SortedDesc parse (sortDesc parse l) := by
  intro l
  induction l with
  | nil => simp [sortDesc, SortedDesc]
  | cons a l ih => exact insertDesc_sorted parse a ih

/-! ### Lemmas about the id-to-record map of mergeApplications -/

theorem mapHas_iff {m : List (Nat × JobApplication)} {k : Nat} :
    mapHas m k = true ↔ k ∈ m.map fun p => p.1 := by
  constructor
  · intro h
    rcases List.any_eq_true.1 h with ⟨p, hp, hpk⟩
    simp only [decide_eq_true_eq] at hpk
    exact hpk ▸ List.mem_map_of_mem (fun p => p.1) hp
  · intro h
    rcases List.mem_map.1 h with ⟨p, hp, hpk⟩
    exact List.any_eq_true.2 ⟨p, hp, by simp [hpk]⟩

theorem mapSet_keys {m : List (Nat × JobApplication)} {k : Nat} {v : JobApplication} :
    (mapSet m k v).map (fun p => p.1) =
      if mapHas m k then m.map fun p => p.1 else (m.map fun p => p.1) ++ [k] := by
  by_cases h : mapHas m k
  · simp only [mapSet, h, if_true, List.map_map]
    refine List.map_congr_left ?_
    intro p _
    by_cases hp : p.1 = k <;> simp [hp]
  · simp [mapSet, h]

theorem mapHas_eq (m : List (Nat × JobApplication)) (k : Nat) :
    mapHas m k = decide (k ∈ m.map fun p => p.1) := by
  rw [Bool.eq_iff_iff]
  simp [mapHas_iff]

theorem mapHas_mapSet {m : List (Nat × JobApplication)} {k k' : Nat} {v : JobApplication} :
    mapHas (mapSet m k v) k' = (mapHas m k' || decide (k' = k)) := by
  have hkeys := @mapSet_keys m k v
  by_cases hmk : mapHas m k
  · rw [if_pos hmk] at hkeys
    rw [mapHas_eq, hkeys, ← mapHas_eq]
    by_cases h : k' = k
    · subst h
      simp [hmk]
    · simp [h]
  · rw [if_neg hmk] at hkeys
    rw [mapHas_eq, hkeys, mapHas_eq]
    rw [Bool.eq_iff_iff]
    simp [List.mem_append]

theorem mapSet_nodup_keys {m : List (Nat × JobApplication)} {k : Nat} {v : JobApplication}
    (h : (m.map fun p => p.1).Nodup) :
    ((mapSet m k v).map fun p => p.1).Nodup := by
  rw [mapSet_keys]
  by_cases hk : mapHas m k
  · simpa [hk] using h
  · simp only [hk, if_false]
    refine List.Nodup.append h (List.nodup_singleton k) ?_
    intro x hx hxk
    simp only [List.mem_singleton] at hxk
    subst hxk
    exact hk (mapHas_iff.2 hx)

theorem mem_mapSet {m : List (Nat × JobApplication)} {k : Nat} {v : JobApplication}
    {p : Nat × JobApplication} (hp : p ∈ mapSet m k v) :
    p = (k, v) ∨ (p ∈ m ∧ p.1 ≠ k) := by
  by_cases hk : mapHas m k
  · simp only [mapSet, hk, if_true, List.mem_map] at hp
    rcases hp with ⟨q, hq, hfq⟩
    by_cases hq1 : q.1 = k
    · simp only [hq1, if_true] at hfq
      exact Or.inl hfq.symm
    · simp only [hq1, if_false] at hfq
      exact Or.inr ⟨hfq ▸ hq, hfq ▸ hq1⟩
  · simp only [mapSet, hk, if_false] at hp
    rcases List.mem_append.1 hp with hp | hp
    · refine Or.inr ⟨hp, ?_⟩
      intro h1
      exact hk (mapHas_iff.2 (h1 ▸ List.mem_map_of_mem (fun p => p.1) hp))
    · simp only [List.mem_singleton] at hp
      exact Or.inl hp

theorem mem_mapSet_of_mem {m : List (Nat × JobApplication)} {k : Nat} {v : JobApplication}
    {p : Nat × JobApplication} (hp : p ∈ m) (hne : p.1 ≠ k) :
    p ∈ mapSet m k v := by
  by_cases hk : mapHas m k
  · simp only [mapSet, hk, if_true, List.mem_map]
    exact ⟨p, hp, by simp [hne]⟩
  · simp [mapSet, hk, hp]

theorem mapHas_exists {m : List (Nat × JobApplication)} {k : Nat}
    (h : mapHas m k = true) : ∃ v, (k, v) ∈ m := by
  rcases List.any_eq_true.1 h with ⟨p, hp, hpk⟩
  simp only [decide_eq_true_eq] at hpk
  exact ⟨p.2, by rw [← hpk]; exact hp⟩

theorem definedIds_cons (a : JobApplication) (l : List JobApplication) :
    definedIds (a :: l) =
      match a.id with
      | some k => k :: definedIds l
      | none => definedIds l := by
  cases h : a.id <;> simp [definedIds, List.filterMap_cons, h]

/-! ### The first forEach: inserting every backend record -/

theorem backendFold_nodup (backend : List JobApplication) :
    ∀ m : List (Nat × JobApplication), ((m.map fun p => p.1).Nodup) →
      (((backend.foldl setBackendStep m).map fun p => p.1).Nodup) := by
  induction backend with
  | nil => intro m hm; simpa using hm
  | cons a bs ih =>
      intro m hm
      rw [List.foldl_cons]
      refine ih _ ?_
      cases h : a.id with
      | none => simpa [setBackendStep, h] using hm
      | some k =>
          simp only [setBackendStep, h]
          exact mapSet_nodup_keys hm

theorem backendFold_mem (backend : List JobApplication) :
    ∀ (m : List (Nat × JobApplication)) (p : Nat × JobApplication),
      p ∈ backend.foldl setBackendStep m →
      p ∈ m ∨ (p.2 ∈ backend ∧ p.2.id = some p.1) := by
  induction backend with
  | nil => intro m p hp; simpa using hp
  | cons a bs ih =>
      intro m p hp
      rw [List.foldl_cons] at hp
      rcases ih _ p hp with hp2 | hp2
      · cases h : a.id with
        | none =>
            simp only [setBackendStep, h] at hp2
            exact Or.inl hp2
        | some k =>
            simp only [setBackendStep, h] at hp2
            rcases mem_mapSet hp2 with hp3 | hp3
            · subst hp3
              exact Or.inr ⟨List.mem_cons_self a bs, h⟩
            · exact Or.inl hp3.1
      · exact Or.inr ⟨List.mem_cons_of_mem a hp2.1, hp2.2⟩

theorem backendFold_has (backend : List JobApplication) :
    ∀ (m : List (Nat × JobApplication)) (k : Nat),
      mapHas (backend.foldl setBackendStep m) k =
        (mapHas m k || decide (k ∈ definedIds backend)) := by
  induction backend with
  | nil => intro m k; simp [definedIds]
  | cons a bs ih =>
      intro m k
      rw [List.foldl_cons, ih]
      cases h : a.id with
      | none => simp [setBackendStep, h, definedIds_cons]
      | some j =>
          simp only [setBackendStep, h, definedIds_cons, mapHas_mapSet]
          rw [Bool.or_assoc, Bool.eq_iff_iff]
          simp [List.mem_cons, or_comm, or_left_comm]

/-! ### The second forEach: inserting local records at fresh ids only -/

theorem mapHas_setLocalStep_mono {m : List (Nat × JobApplication)}
    {a : JobApplication} {k : Nat} (h : mapHas m k = true) :
    mapHas (setLocalStep m a) k = true := by
  cases ha : a.id with
  | none => simpa [setLocalStep, ha] using h
  | some j =>
      by_cases hj : mapHas m j
      · simpa [setLocalStep, ha, hj] using h
      · simp [setLocalStep, ha, hj, mapHas_mapSet, h]

theorem localFold_nodup (ls : List JobApplication) :
    ∀ m : List (Nat × JobApplication), ((m.map fun p => p.1).Nodup) →
      (((ls.foldl setLocalStep m).map fun p => p.1).Nodup) := by
  induction ls with
  | nil => intro m hm; simpa using hm
  | cons a bs ih =>
      intro m hm
      rw [List.foldl_cons]
      refine ih _ ?_
      cases h : a.id with
      | none => simpa [setLocalStep, h] using hm
      | some k =>
          by_cases hk : mapHas m k
          · simpa [setLocalStep, h, hk] using hm
          · simp only [setLocalStep, h, hk, if_false]
            exact mapSet_nodup_keys hm

theorem localFold_preserve (ls : List JobApplication) :
    ∀ (m : List (Nat × JobApplication)) (p : Nat × JobApplication),
      p ∈ m → p ∈ ls.foldl setLocalStep m := by
  induction ls with
  | nil => intro m p hp; simpa using hp
  | cons a bs ih =>
      intro m p hp
      rw [List.foldl_cons]
      refine ih _ p ?_
      cases h : a.id with
      | none => simpa [setLocalStep, h] using hp
      | some j =>
          by_cases hj : mapHas m j
          · simpa [setLocalStep, h, hj] using hp
          · simp only [setLocalStep, h, hj, if_false, mapSet]
            have : mapHas m j = false := by simpa using hj
            simp [this, List.mem_append, hp]

theorem localFold_mem (ls : List JobApplication) :
    ∀ (m : List (Nat × JobApplication)) (p : Nat × JobApplication),
      p ∈ ls.foldl setLocalStep m →
      p ∈ m ∨ (p.2 ∈ ls ∧ p.2.id = some p.1 ∧ mapHas m p.1 = false) := by
  induction ls with
  | nil => intro m p hp; simpa using hp
  | cons a bs ih =>
      intro m p hp
      rw [List.foldl_cons] at hp
      rcases ih _ p hp with hp2 | hp2
      · cases h : a.id with
        | none =>
            simp only [setLocalStep, h] at hp2
            exact Or.inl hp2
        | some j =>
            by_cases hj : mapHas m j
            · simp only [setLocalStep, h, hj, if_true] at hp2
              exact Or.inl hp2
            · simp only [setLocalStep, h, hj, if_false] at hp2
              rcases mem_mapSet hp2 with hp3 | hp3
              · subst hp3
                exact Or.inr ⟨List.mem_cons_self a bs, h, by simpa using hj⟩
              · exact Or.inl hp3.1
      · rcases hp2 with ⟨hmem, hid, hhas⟩
        have : mapHas m p.1 = false := by
          rcases Bool.eq_false_or_eq_true (mapHas m p.1) with h2 | h2
          · rw [mapHas_setLocalStep_mono h2] at hhas
            exact absurd hhas (by simp)
          · exact h2
        exact Or.inr ⟨List.mem_cons_of_mem a hmem, hid, this⟩

theorem localFold_has (ls : List JobApplication) :
    ∀ (m : List (Nat × JobApplication)) (k : Nat),
      mapHas (ls.foldl setLocalStep m) k =
        (mapHas m k || decide (k ∈ definedIds ls)) := by
  induction ls with
  | nil => intro m k; simp [definedIds]
  | cons a bs ih =>
      intro m k
      rw [List.foldl_cons, ih]
      cases h : a.id with
      | none => simp [setLocalStep, h, definedIds_cons]
      | some j =>
          by_cases hj : mapHas m j
          · simp only [setLocalStep, h, hj, if_true, definedIds_cons]
            rw [Bool.eq_iff_iff]
            by_cases hk : k = j
            · subst hk
              simp [hj]
            · simp [List.mem_cons, hk]
          · simp only [setLocalStep, h, definedIds_cons]
            rw [if_neg hj, mapHas_mapSet, Bool.or_assoc, Bool.eq_iff_iff]
            simp [List.mem_cons, or_comm, or_left_comm]

/-! ### Properties of the merged id-to-record map -/

theorem mergedMap_nodup_keys (localApps backend : List JobApplication) :
    (((mergedMap localApps backend).map fun p => p.1).Nodup) :=
  localFold_nodup localApps _ (backendFold_nodup backend [] (by simp))

theorem mergedMap_entry_id (localApps backend : List JobApplication)
    {p : Nat × JobApplication} (hp : p ∈ mergedMap localApps backend) :
    p.2.id = some p.1 := by
  rcases localFold_mem localApps _ p hp with hp2 | hp2
  · rcases backendFold_mem backend [] p hp2 with hp3 | hp3
    · simp at hp3
    · exact hp3.2
  · exact hp2.2.1

theorem mergedMap_entry_src (localApps backend : List JobApplication)
    {p : Nat × JobApplication} (hp : p ∈ mergedMap localApps backend) :
    p.2 ∈ backend ∨ p.2 ∈ localApps := by
  rcases localFold_mem localApps _ p hp with hp2 | hp2
  · rcases backendFold_mem backend [] p hp2 with hp3 | hp3
    · simp at hp3
    · exact Or.inl hp3.1
  · exact Or.inr hp2.1

theorem mergedMap_entry_backend (localApps backend : List JobApplication)
    {p : Nat × JobApplication} (hp : p ∈ mergedMap localApps backend)
    (hk : p.1 ∈ definedIds backend) : p.2 ∈ backend := by
  rcases localFold_mem localApps _ p hp with hp2 | hp2
  · rcases backendFold_mem backend [] p hp2 with hp3 | hp3
    · simp at hp3
    · exact hp3.1
  · exfalso
    have := hp2.2.2
    rw [backendFold_has backend [] p.1] at this
    simp [hk] at this

theorem mergedMap_has (localApps backend : List JobApplication) (k : Nat) :
    mapHas (mergedMap localApps backend) k =
      (decide (k ∈ definedIds backend) || decide (k ∈ definedIds localApps)) := by
  unfold mergedMap
  rw [localFold_has, backendFold_has]
  simp [mapHas]

theorem definedIds_values {m : List (Nat × JobApplication)}
    (h : ∀ p ∈ m, p.2.id = some p.1) :
    definedIds (m.map fun p => p.2) = m.map fun p => p.1 := by
  induction m with
  | nil => simp [definedIds]
  | cons p m ih =>
      have hp := h p (List.mem_cons_self p m)
      simp only [List.map_cons, definedIds_cons, hp]
      rw [ih fun q hq => h q (List.mem_cons_of_mem p hq)]

/-! ### Helpers for the pending-changes counter and the cache list -/

theorem updatePendingChanges_one (p : Nat) : updatePendingChanges p 1 = p + 1 := by
  unfold updatePendingChanges
  omega

theorem updatePendingChanges_cancel (p : Nat) :
    updatePendingChanges p (-(p : Int)) = 0 := by
  unfold updatePendingChanges
  omega

theorem countP_definedIds (id : Nat) (l : List JobApplication) :
    (l.countP fun app => app.id == some id) = (definedIds l).count id := by
  induction l with
  | nil => rfl
  | cons a l ih =>
      cases h : a.id with
      | none => simp [List.countP_cons, definedIds_cons, h, ih]
      | some k =>
          by_cases hk : k = id
          · subst hk
            simp [List.countP_cons, definedIds_cons, h, ih, List.count_cons]
          · simp [List.countP_cons, definedIds_cons, h, ih, List.count_cons, hk]

theorem deleteApplication_length (id : Nat) (l : List JobApplication) :
    (deleteApplication id l).length + (l.countP fun app => app.id == some id) = l.length := by
  induction l with
  | nil => rfl
  | cons a l ih =>
      by_cases h : a.id = some id
      · have h1 : deleteApplication id (a :: l) = deleteApplication id l := by
          simp [deleteApplication, List.filter_cons, h]
        have h2 : ((a :: l).countP fun app => app.id == some id)
            = (l.countP fun app => app.id == some id) + 1 := by
          simp [List.countP_cons, h]
        rw [h1, h2]
        simp only [List.length_cons]
        omega
      · have h1 : deleteApplication id (a :: l) = a :: deleteApplication id l := by
          simp [deleteApplication, List.filter_cons, h]
        have h2 : ((a :: l).countP fun app => app.id == some id)
            = (l.countP fun app => app.id == some id) := by
          simp [List.countP_cons, h]
        rw [h1, h2]
        simp only [List.length_cons]
        omega

theorem mem_map_id_iff {l : List JobApplication} {id : Nat} :
    some id ∈ l.map (fun app => app.id) ↔ id ∈ definedIds l := by
  simp [definedIds, List.mem_filterMap, List.mem_map]

/-! ### Claim C2 -/

/-- C2 (counterexample): running updateApplicationWithSync while
offline returns true at this concrete input, not the failure indicator
false the claim requires, so an offline (local-only) update is not
distinguishable from a remote-confirmed one by the return value. -/
theorem updateApplicationWithSync_offline_counterexample :
    (updateApplicationWithSync false "2024-06-01T00:00:00.000Z" 0 (Except.ok ()) 1 u0
      sampleState).ok = true := by
  rfl

/-- C2 (amended): when updateApplicationWithSync runs while offline, it
updates the cache directly, increments pendingChanges, and returns
true (not false); false is returned exactly when the call is online
and the remote update throws, in which case the cache is still updated
and pendingChanges still incremented; online with remote success
returns true. The offline result does not depend on the remote-call
outcome parameter (no remote call is made). -/
theorem updateApplicationWithSync_spec (nowIso : String) (nowSync : Int) (e : String)
    (rc rc2 : Except String Unit) (id : Nat) (updates : JobApplicationUpdate)
    (s : ManagerState) :
    (updateApplicationWithSync false nowIso nowSync rc id updates s =
      { state :=
          { applications := updateApplication nowIso id (.fieldUpdate updates) s.applications
            syncStatus :=
              { s.syncStatus with pendingChanges := s.syncStatus.pendingChanges + 1 } }
        ok := true
        remoteCalled := false })
    ∧ (updateApplicationWithSync false nowIso nowSync rc id updates s =
        updateApplicationWithSync false nowIso nowSync rc2 id updates s)
    ∧ (updateApplicationWithSync true nowIso nowSync (Except.error e) id updates s =
      { state :=
          { applications := updateApplication nowIso id (.fieldUpdate updates) s.applications
            syncStatus :=
              { s.syncStatus with pendingChanges := s.syncStatus.pendingChanges + 1 } }
        ok := false
        remoteCalled := true })
    ∧ (updateApplicationWithSync true nowIso nowSync (Except.ok ()) id updates s).ok = true := by
  refine ⟨?_, rfl, ?_, rfl⟩ <;>
    simp [updateApplicationWithSync, updatePendingChanges_one]

/-! ### Claim C3 -/

/-- C3: when syncWithBackend runs online with no reconciliation in
flight and the remote fetch succeeds, the final state has the cache
replaced wholesale by the merge of the current local list with the
fetched remote list, pendingChanges exactly zero regardless of its
prior value, lastSync set to the current time, and the error cleared. -/
theorem syncWithBackend_success (parse : String → Int) (now : Int)
    (backendApps : List JobApplication) (s : ManagerState)
    (hsync : s.syncStatus.isSyncing = false) :
    (syncWithBackend parse true now (Except.ok backendApps) s).state =
      { applications := mergeApplications parse s.applications backendApps
        syncStatus :=
          { isOnline := s.syncStatus.isOnline
            lastSync := some now
            pendingChanges := 0
            isSyncing := false
            error := none } } := by
  simp [syncWithBackend, hsync, syncLocalStorage, updatePendingChanges_cancel]

/-- Witness for C3 at a concrete state with pendingChanges = 3. -/
theorem syncWithBackend_success_witness :
    (syncWithBackend parseZero true 42 (Except.ok [appA]) sampleState).state =
      { applications := mergeApplications parseZero sampleState.applications [appA]
        syncStatus :=
          { isOnline := false
            lastSync := some 42
            pendingChanges := 0
            isSyncing := false
            error := none } } :=
  syncWithBackend_success parseZero 42 [appA] sampleState rfl

/-! ### Claim C4 -/

/-- C4: when the remote fetch inside syncWithBackend fails, the error
field is set and the pendingChanges counter, the lastSync timestamp,
the online flag and the cached application list are all left exactly
as before the call. -/
theorem syncWithBackend_failure (parse : String → Int) (now : Int) (e : String)
    (s : ManagerState) (hsync : s.syncStatus.isSyncing = false) :
    (syncWithBackend parse true now (Except.error e) s).state.applications = s.applications
    ∧ (syncWithBackend parse true now (Except.error e) s).state.syncStatus.pendingChanges
        = s.syncStatus.pendingChanges
    ∧ (syncWithBackend parse true now (Except.error e) s).state.syncStatus.lastSync
        = s.syncStatus.lastSync
    ∧ (syncWithBackend parse true now (Except.error e) s).state.syncStatus.error
        = some "Failed to sync with backend"
    ∧ (syncWithBackend parse true now (Except.error e) s).state.syncStatus.isOnline
        = s.syncStatus.isOnline
    ∧ (syncWithBackend parse true now (Except.error e) s).state.syncStatus.isSyncing
        = false := by
  simp [syncWithBackend, hsync]

/-- Witness for C4 at a concrete state. -/
theorem syncWithBackend_failure_witness :
    (syncWithBackend parseZero true 42 (Except.error "network down") sampleState).state.applications
        = sampleState.applications
    ∧ (syncWithBackend parseZero true 42 (Except.error "network down")
        sampleState).state.syncStatus.pendingChanges = sampleState.syncStatus.pendingChanges :=
  ⟨(syncWithBackend_failure parseZero 42 "network down" sampleState rfl).1,
   (syncWithBackend_failure parseZero 42 "network down" sampleState rfl).2.1⟩

/-! ### Claim C5 -/

/-- C5: addApplicationWithSync called offline makes no remote call (its
result is independent of the would-be remote outcome and remoteCalled
is false), returns a synthesized record whose id is the Date.now()
value and whose created_at/updated_at are the current ISO time, appends
that record to the cache, and increments pendingChanges by exactly 1;
when online but the remote create throws, the entire result is
identical except that the remote call was attempted; no error is ever
propagated (the function totally returns a record in every case). -/
theorem addApplicationWithSync_spec (dateNow : Nat) (nowIso : String) (nowSync : Int)
    (rc rc2 : Except String JobApplication) (e : String)
    (d : JobApplicationCreate) (s : ManagerState) :
    ((addApplicationWithSync false dateNow nowIso nowSync rc d s).remoteCalled = false)
    ∧ (addApplicationWithSync false dateNow nowIso nowSync rc d s =
        addApplicationWithSync false dateNow nowIso nowSync rc2 d s)
    ∧ ((addApplicationWithSync false dateNow nowIso nowSync rc d s).returned =
        mkTemp d dateNow nowIso)
    ∧ (mkTemp d dateNow nowIso).id = some dateNow
    ∧ (mkTemp d dateNow nowIso).created_at = some nowIso
    ∧ (mkTemp d dateNow nowIso).updated_at = some nowIso
    ∧ ((addApplicationWithSync false dateNow nowIso nowSync rc d s).state.applications =
        s.applications ++ [mkTemp d dateNow nowIso])
    ∧ ((addApplicationWithSync false dateNow nowIso nowSync rc d s).state.syncStatus.pendingChanges
        = s.syncStatus.pendingChanges + 1)
    ∧ (addApplicationWithSync true dateNow nowIso nowSync (Except.error e) d s =
        { addApplicationWithSync false dateNow nowIso nowSync rc d s with
            remoteCalled := true }) := by
  refine ⟨rfl, rfl, rfl, rfl, rfl, rfl, rfl, ?_, ?_⟩ <;>
    simp [addApplicationWithSync, updatePendingChanges_one]

/-! ### Claim C8 -/

/-- C8: syncWithBackend returns the state unchanged and performs no
fetch whenever the online flag is false or a reconciliation is already
in flight; a re-entrant call is dropped, not queued. -/
theorem syncWithBackend_guard (parse : String → Int) (online : Bool) (now : Int)
    (fetchResult : Except String (List JobApplication)) (s : ManagerState)
    (h : online = false ∨ s.syncStatus.isSyncing = true) :
    syncWithBackend parse online now fetchResult s = { state := s, fetched := false } := by
  rcases h with h | h
  · subst h
    rfl
  · simp [syncWithBackend, h]

/-- Witness for C8 at a concrete offline state. -/
theorem syncWithBackend_guard_witness :
    syncWithBackend parseZero false 0 (Except.ok []) sampleState =
      { state := sampleState, fetched := false } :=
  syncWithBackend_guard parseZero false 0 (Except.ok []) sampleState (Or.inl rfl)

/-! ### Shared helpers about the merge output and the partial update -/

theorem definedIds_merge_perm (parse : String → Int) (localApps backend : List JobApplication) :
    (definedIds (mergeApplications parse localApps backend)).Perm
      ((mergedMap localApps backend).map fun p => p.1) := by
  have h1 : (definedIds (mergeApplications parse localApps backend)).Perm
      (definedIds ((mergedMap localApps backend).map fun p => p.2)) :=
    (sortDesc_perm parse _).filterMap _
  rwa [definedIds_values fun q hq => mergedMap_entry_id localApps backend hq] at h1

theorem mem_merge_exists (parse : String → Int) (localApps backend : List JobApplication)
    {app : JobApplication} (happ : app ∈ mergeApplications parse localApps backend) :
    ∃ p ∈ mergedMap localApps backend, p.2 = app := by
  have h2 : app ∈ (mergedMap localApps backend).map fun p => p.2 :=
    (sortDesc_perm parse _).subset happ
  exact List.mem_map.1 h2

theorem applyUpdate_unsupplied (now : String) (app : JobApplication)
    (u : JobApplicationUpdate) :
    UnsuppliedUnchanged u app (applyUpdate now app u)
    ∧ (applyUpdate now app u).updated_at = some now := by
  refine ⟨⟨rfl, ?_, ?_, ?_, ?_, ?_, ?_, ?_, ?_, ?_, ?_, ?_, ?_, ?_, ?_, ?_, ?_⟩, rfl⟩ <;>
    (intro h; simp [applyUpdate, h])

/-! ### Claim C1 -/

/-- C1 (counterexample): on the remote list consisting of appA (no
created_at at all) and appB (created_at parsing to a pre-1970 negative
timestamp) with an empty local list, the merge places appA first, i.e.
newest; the claimed ordering, under which a record lacking a parseable
created_at sorts as oldest, fails on this output. The parser value
matches ECMAScript Date, for which the 1960 ISO string yields
-315619200000. -/
theorem mergeApplications_sort_counterexample :
    mergeApplications parse1960 [] [appA, appB] = [appA, appB]
    ∧ lacksCreatedAt appA = true
    ∧ lacksCreatedAt appB = false
    ∧ claimSortedOk parse1960 (mergeApplications parse1960 [] [appA, appB]) = false := by
  refine ⟨by decide, rfl, by decide, by decide⟩

/-- C1 (amended): for every parser and lists, the merge result's ids
are exactly the union of the defined ids of the remote and local lists,
each id maps to a single record (ids are duplicate-free), every result
record is taken wholesale from one input list, every record whose id
occurs in the remote list is a remote record (remote wins, no
field-level merging), and the result is sorted descending by the
created_at-derived key under which a missing (or empty) created_at
counts as the epoch time 0 — so such records sort as oldest only
relative to records with non-negative (post-1970) timestamps, not
unconditionally. -/
theorem mergeApplications_spec (parse : String → Int)
    (localApps backend : List JobApplication) :
    (∀ k : Nat, k ∈ definedIds (mergeApplications parse localApps backend) ↔
        (k ∈ definedIds backend ∨ k ∈ definedIds localApps))
    ∧ (definedIds (mergeApplications parse localApps backend)).Nodup
    ∧ (∀ app ∈ mergeApplications parse localApps backend,
        app ∈ backend ∨ app ∈ localApps)
    ∧ (∀ app ∈ mergeApplications parse localApps backend, ∀ k : Nat,
        app.id = some k → k ∈ definedIds backend → app ∈ backend)
    ∧ SortedDesc parse (mergeApplications parse localApps backend) := by
  refine ⟨?_, ?_, ?_, ?_, sortDesc_sorted parse _⟩
  · intro k
    rw [(definedIds_merge_perm parse localApps backend).mem_iff, ← mapHas_iff,
      mergedMap_has]
    simp
  · exact (definedIds_merge_perm parse localApps backend).nodup_iff.2
      (mergedMap_nodup_keys localApps backend)
  · intro app happ
    rcases mem_merge_exists parse localApps backend happ with ⟨p, hp, rfl⟩
    exact mergedMap_entry_src localApps backend hp
  · intro app happ k hid hk
    rcases mem_merge_exists parse localApps backend happ with ⟨p, hp, rfl⟩
    have hpid := mergedMap_entry_id localApps backend hp
    have hk1 : p.1 = k := by
      rw [hid] at hpid
      exact (Option.some.inj hpid).symm
    exact mergedMap_entry_backend localApps backend hp (hk1 ▸ hk)

/-- Witness for C1 (amended) at concrete lists. -/
theorem mergeApplications_spec_witness :
    (2 ∈ definedIds (mergeApplications parse1960 [appL] [appA, appB]) ↔
      (2 ∈ definedIds [appA, appB] ∨ 2 ∈ definedIds [appL]))
    ∧ (appA ∈ ([appA, appB] : List JobApplication) ∨ appA ∈ ([appL] : List JobApplication)) :=
  ⟨(mergeApplications_spec parse1960 [appL] [appA, appB]).1 2,
   (mergeApplications_spec parse1960 [appL] [appA, appB]).2.2.1 appA (by decide)⟩

/-! ### Claim C6 -/

/-- C6 (counterexample): a cache state holding the same record twice is
reachable through the cache operations alone (two adds of a record with
id 1), and its identifiers are not unique. -/
theorem cache_duplicate_ids_counterexample :
    CacheReachable [oldApp, oldApp] ∧ ¬ (definedIds [oldApp, oldApp]).Nodup := by
  constructor
  · have h0 : CacheReachable ([] : List JobApplication) := CacheReachable.start
    have h1 := CacheReachable.addStep oldApp h0
    have h2 := CacheReachable.addStep oldApp h1
    simpa [addApplication] using h2
  · decide

/-- C6 (amended): identifier uniqueness is not an invariant of the raw
cache operations (add appends unconditionally, see the counterexample);
what does hold is that the merge installed by a successful
reconciliation always has duplicate-free ids, and that in any cache
whose ids are unique an id that is present is carried by exactly one
record, so a delete addressed by it removes exactly one record. -/
theorem cache_id_uniqueness (parse : String → Int)
    (localApps backend l : List JobApplication) (id : Nat) :
    (definedIds (mergeApplications parse localApps backend)).Nodup
    ∧ ((definedIds l).Nodup → id ∈ definedIds l →
        (l.countP fun app => app.id == some id) = 1
        ∧ (deleteApplication id l).length + 1 = l.length) := by
  constructor
  · exact (definedIds_merge_perm parse localApps backend).nodup_iff.2
      (mergedMap_nodup_keys localApps backend)
  · intro hnd hid
    have hc : (l.countP fun app => app.id == some id) = 1 := by
      rw [countP_definedIds]
      exact List.count_eq_one_of_mem hnd hid
    refine ⟨hc, ?_⟩
    have := deleteApplication_length id l
    omega

/-- Witness for C6 (amended) at concrete lists. -/
theorem cache_id_uniqueness_witness :
    (definedIds (mergeApplications parse1960 [appL] [appA, appB])).Nodup
    ∧ (([oldApp].countP fun app => app.id == some 1) = 1
        ∧ (deleteApplication 1 [oldApp]).length + 1 = [oldApp].length) :=
  ⟨(cache_id_uniqueness parse1960 [appL] [appA, appB] [oldApp] 1).1,
   (cache_id_uniqueness parse1960 [appL] [appA, appB] [oldApp] 1).2 (by decide) (by decide)⟩

/-! ### Claim C7 -/

/-- C7 (counterexample): updating the record with id 1 by a complete
record carrying the matching id installs the payload verbatim; the
stored updated_at remains the payload's stale value, not the refreshed
current time, so not every local mutation through update refreshes
updated_at. -/
theorem updateApplication_fullRecord_counterexample :
    updateApplication "2025-06-01T00:00:00.000Z" 1 (UpdatePayload.fullRecord oldAppEdit)
        [oldApp] = [oldAppEdit]
    ∧ oldAppEdit.updated_at = some "2024-01-01T00:00:00.000Z"
    ∧ (some "2024-01-01T00:00:00.000Z" : Option String) ≠ some "2025-06-01T00:00:00.000Z" := by
  refine ⟨by decide, rfl, by decide⟩

/-- C7 (amended): a partial update refreshes updated_at to the current
time on every record it touches; an update whose payload is a complete
record carrying the matching id replaces the stored record outright,
keeping the payload's updated_at exactly as supplied. -/
theorem updateApplication_updated_at (now : String) (id : Nat) (u : JobApplicationUpdate)
    (a : JobApplication) (l : List JobApplication) :
    (∀ app ∈ updateApplication now id (.fieldUpdate u) l, app.id = some id →
        app.updated_at = some now)
    ∧ (a.id = some id →
        updateApplication now id (.fullRecord a) l =
          l.map fun app => if app.id = some id then a else app) := by
  constructor
  · intro app happ hid
    rcases List.mem_map.1 happ with ⟨b, hb, rfl⟩
    by_cases h : b.id = some id
    · rw [if_pos h]
      exact (applyUpdate_unsupplied now b u).2
    · rw [if_neg h] at hid
      exact absurd hid h
  · intro ha
    refine List.map_congr_left ?_
    intro app _
    by_cases h : app.id = some id
    · rw [if_pos h, if_pos h]
      show (if a.id = some id then a else applyFull now app a) = a
      rw [if_pos ha]
    · rw [if_neg h, if_neg h]

/-- Witness for C7 (amended) at concrete inputs. -/
theorem updateApplication_updated_at_witness :
    (applyUpdate "2025-06-01T00:00:00.000Z" oldApp u0).updated_at
        = some "2025-06-01T00:00:00.000Z"
    ∧ updateApplication "2025-06-01T00:00:00.000Z" 1 (UpdatePayload.fullRecord oldAppEdit)
        [oldApp] = [oldApp].map fun app => if app.id = some 1 then oldAppEdit else app :=
  ⟨(updateApplication_updated_at "2025-06-01T00:00:00.000Z" 1 u0 oldAppEdit [oldApp]).1
      (applyUpdate "2025-06-01T00:00:00.000Z" oldApp u0) (by decide) (by decide),
   (updateApplication_updated_at "2025-06-01T00:00:00.000Z" 1 u0 oldAppEdit [oldApp]).2
      (by decide)⟩

/-! ### Claim C9 -/

/-- C9: a partial update leaves every record whose id differs from the
target byte-for-byte unchanged at its position, changes each targeted
record only in the supplied fields plus updated_at (every unsupplied
field carried over, id untouched, updated_at set to the current time),
and when the id is absent from the list leaves the whole list
unchanged. -/
theorem updateApplication_frame (now : String) (id : Nat) (u : JobApplicationUpdate)
    (l : List JobApplication) :
    List.Forall₂ (fun app o =>
        (app.id ≠ some id → o = app)
        ∧ (app.id = some id → UnsuppliedUnchanged u app o ∧ o.updated_at = some now))
      l (updateApplication now id (.fieldUpdate u) l)
    ∧ (id ∉ definedIds l → updateApplication now id (.fieldUpdate u) l = l) := by
  constructor
  · rw [show updateApplication now id (.fieldUpdate u) l =
        l.map (fun app => if app.id = some id then applyUpdate now app u else app) from rfl]
    rw [List.forall₂_map_right_iff, List.forall₂_same]
    intro app _
    by_cases h : app.id = some id
    · refine ⟨fun hne => absurd h hne, fun _ => ?_⟩
      rw [if_pos h]
      exact applyUpdate_unsupplied now app u
    · refine ⟨fun _ => ?_, fun heq => absurd heq h⟩
      rw [if_neg h]
  · intro hid
    have hpt : ∀ app ∈ l,
        (if app.id = some id then applyUpdate now app u else app) = app := by
      intro app happ
      rw [if_neg]
      intro h
      exact hid (by simp [definedIds, List.mem_filterMap]; exact ⟨app, happ, h⟩)
    calc updateApplication now id (.fieldUpdate u) l
        = l.map (fun app => if app.id = some id then applyUpdate now app u else app) := rfl
      _ = l := by rw [List.map_congr_left hpt]; exact List.map_id l

/-- Witness for C9 at a concrete list not containing the target id. -/
theorem updateApplication_frame_witness :
    updateApplication "2025-06-01T00:00:00.000Z" 9 (UpdatePayload.fieldUpdate u0) [oldApp]
      = [oldApp] :=
  (updateApplication_frame "2025-06-01T00:00:00.000Z" 9 u0 [oldApp]).2 (by decide)

/-! ### Claim C10 -/

/-- C10: every record in the merge output has a defined id, and a
record whose id is undefined — such as a not-yet-persisted local
record — is never a member of the merge output, from either input
list. -/
theorem mergeApplications_defined_ids (parse : String → Int)
    (localApps backend : List JobApplication) :
    (∀ app ∈ mergeApplications parse localApps backend, app.id.isSome = true)
    ∧ ∀ app : JobApplication, app.id = none →
        app ∉ mergeApplications parse localApps backend := by
  have h : ∀ app ∈ mergeApplications parse localApps backend, app.id.isSome = true := by
    intro app happ
    rcases mem_merge_exists parse localApps backend happ with ⟨p, hp, rfl⟩
    rw [mergedMap_entry_id localApps backend hp]
    rfl
  refine ⟨h, ?_⟩
  intro app hid happ
  have h2 := h app happ
  rw [hid] at h2
  simp at h2

/-- Witness for C10: a local record with no id is dropped by the merge
while the remote record survives. -/
theorem mergeApplications_defined_ids_witness :
    appA.id.isSome = true
    ∧ noIdApp ∉ mergeApplications parse1960 [noIdApp] [appA] :=
  ⟨(mergeApplications_defined_ids parse1960 [noIdApp] [appA]).1 appA (by decide),
   (mergeApplications_defined_ids parse1960 [noIdApp] [appA]).2 noIdApp rfl⟩

end JobAppTracker
